import Mathlib

/-!
Verification of the scoring engine, history store, classifier and
check-cycle dispatch logic of the btc-eth-monitor application
(`src/app.py`).  Python floats are embedded as real numbers; the
per-(asset, metric) JSON file store is embedded as a map from keys to an
explicit file state (absent / corrupt / good contents); the
Python slice `arr[-n:]` is embedded by `pySliceLast`.
-/

open scoped Classical

noncomputable section

namespace App

/-- The Python slice `arr[-n:]` for a nonnegative `n` : the last `n` elements,
except that `arr[-0:]` is the whole list. -/
def pySliceLast (n : ℕ) (l : List ℝ) : List ℝ :=
  if n = 0 then l else l.drop (l.length - n)

/-- `statistics.mean`. -/
def mean (l : List ℝ) : ℝ := l.sum / l.length

/-- Population variance, as used by `statistics.pstdev`. -/
def pvariance (l : List ℝ) : ℝ :=
  (l.map (fun x => (x - mean l) ^ 2)).sum / l.length

/-- `statistics.pstdev`: square root of the population variance. -/
def pstdev (l : List ℝ) : ℝ := Real.sqrt (pvariance l)

/-- `compute_zscore` (app.py lines 134-141):
`if not hist or len(hist) < 2: return 0.0`; then `if sigma == 0: return 0.0`;
otherwise `(value - mu) / sigma`. -/
def compute_zscore (value : ℝ) (hist : List ℝ) : ℝ :=
  if hist = [] ∨ hist.length < 2 then 0
  else if pstdev hist = 0 then 0
  else (value - mean hist) / pstdev hist

/-- `normalize_score` (app.py lines 143-145):
`clipped = max(min(raw, maxv), minv); return (clipped - minv) / (maxv - minv) * 100`. -/
def normalize_score (raw : ℝ) (minv : ℝ := -3) (maxv : ℝ := 3) : ℝ :=
  (max (min raw maxv) minv - minv) / (maxv - minv) * 100

lemma mean_of_const {l : List ℝ} {c : ℝ} (hne : l ≠ []) (h : ∀ x ∈ l, x = c) :
    mean l = c := by
  have hsum : l.sum = l.length • c := List.sum_eq_card_nsmul l c h
  have hpos : 0 < l.length := List.length_pos.mpr hne
  have hlen : (l.length : ℝ) ≠ 0 := by
    exact_mod_cast Nat.pos_iff_ne_zero.mp hpos
  simp only [mean, hsum, nsmul_eq_mul]
  field_simp

lemma pvariance_of_const {l : List ℝ} {c : ℝ} (hne : l ≠ []) (h : ∀ x ∈ l, x = c) :
    pvariance l = 0 := by
  have hmean := mean_of_const hne h
  have hz : ∀ y ∈ l.map (fun x => (x - mean l) ^ 2), y = (0 : ℝ) := by
    intro y hy
    rcases List.mem_map.mp hy with ⟨x, hx, rfl⟩
    rw [h x hx, hmean]
    ring
  have hsum : (l.map (fun x => (x - mean l) ^ 2)).sum = 0 := by
    have := List.sum_eq_card_nsmul _ (0 : ℝ) hz
    simpa using this
  simp [pvariance, hsum]

lemma pstdev_of_const {l : List ℝ} {c : ℝ} (hne : l ≠ []) (h : ∀ x ∈ l, x = c) :
    pstdev l = 0 := by
  simp [pstdev, pvariance_of_const hne h]

/-- C1: the z-score is `0` when the history has fewer than 2 points, `0` when
its population standard deviation is `0` (in particular for every constant
history, so it is always a well-defined real number there, never NaN/∞), and
otherwise equals `(value - mean) / pstdev`. -/
theorem compute_zscore_spec (value : ℝ) (hist : List ℝ) :
    (hist.length < 2 → compute_zscore value hist = 0) ∧
    (pstdev hist = 0 → compute_zscore value hist = 0) ∧
    (2 ≤ hist.length → pstdev hist ≠ 0 →
      compute_zscore value hist = (value - mean hist) / pstdev hist) ∧
    (∀ c : ℝ, (∀ x ∈ hist, x = c) → compute_zscore value hist = 0) := by
  refine ⟨?_, ?_, ?_, ?_⟩
  · intro hlt
    simp [compute_zscore, hlt]
  · intro hσ
    by_cases hshort : hist = [] ∨ hist.length < 2
    · simp [compute_zscore, hshort]
    · simp [compute_zscore, hshort, hσ]
  · intro hlen hσ
    have hshort : ¬(hist = [] ∨ hist.length < 2) := by
      push_neg
      constructor
      · intro hnil
        rw [hnil] at hlen
        simp at hlen
      · omega
    simp [compute_zscore, hshort, hσ]
  · intro c hconst
    by_cases hnil : hist = []
    · simp [compute_zscore, hnil]
    · have hσ : pstdev hist = 0 := pstdev_of_const hnil hconst
      by_cases hshort : hist = [] ∨ hist.length < 2
      · simp [compute_zscore, hshort]
      · simp [compute_zscore, hshort, hσ]

/-- Witness for C1: a two-point history `[1, 3]` has mean 2 and population
stdev 1, so the z-score of 5 is 3; and any value against the constant
history `[4, 4]` scores 0. -/
theorem compute_zscore_spec_witness :
    compute_zscore 5 [1, 3] = (5 - mean [1, 3]) / pstdev [1, 3] ∧
    compute_zscore 7 [4, 4] = 0 := by
  constructor
  · apply (compute_zscore_spec 5 [1, 3]).2.2.1
    · simp
    · have hvar : pvariance [1, 3] = 1 := by
        norm_num [pvariance, mean]
      simp [pstdev, hvar]
  · exact (compute_zscore_spec 7 [4, 4]).2.2.2 4 (by intro x hx; simpa using hx)

/-- The z-score dictionary built by `compute_overheat_score` (app.py lines
149-151): one entry per key present in the metrics snapshot, each computed
against the history window of that metric. -/
def zOf (metrics : String → Option ℝ) (hist_stats : String → List ℝ) :
    String → Option ℝ :=
  fun k => (metrics k).map (fun v => compute_zscore v (hist_stats k))

/-- The raw weighted sum of `compute_overheat_score` (app.py lines 153-159):
`z.get(k, 0.0)` times the fixed weight for each of the six metrics, with the
`reserve_change_pct` z-score negated before its weight is applied. -/
def rawWeightedSum (z : String → Option ℝ) : ℝ :=
  (z "etf_netflow").getD 0 * 0.30
  + (z "exchange_netflow").getD 0 * 0.15
  + (z "oi_change_pct").getD 0 * 0.15
  + (z "funding_rate").getD 0 * 0.10
  + (z "whale_count").getD 0 * 0.10
  + (-(z "reserve_change_pct").getD 0) * 0.20

/-- `compute_overheat_score` (app.py lines 147-161): per-metric z-scores,
weighted raw sum, then normalization to 0-100. -/
def compute_overheat_score (metrics : String → Option ℝ)
    (hist_stats : String → List ℝ) : ℝ × (String → Option ℝ) :=
  let z := zOf metrics hist_stats
  (normalize_score (rawWeightedSum z) (-3) 3, z)

/-- The six metric names with their aggregation weights, and the sign applied
to the z-score before weighting, as the spec states them. -/
def metricWeights : List (String × ℝ × ℝ) :=
  [("etf_netflow", 0.30, 1), ("exchange_netflow", 0.15, 1),
   ("oi_change_pct", 0.15, 1), ("funding_rate", 0.10, 1),
   ("whale_count", 0.10, 1), ("reserve_change_pct", 0.20, -1)]

/-- The description the spec gives of the raw aggregate: a sum over the six metrics of
weight times (sign times z-score), where a metric absent from the snapshot
contributes zero. -/
def specWeightedSum (metrics : String → Option ℝ)
    (hist_stats : String → List ℝ) : ℝ :=
  (metricWeights.map (fun p =>
    match metrics p.1 with
    | none => 0
    | some v => p.2.1 * (p.2.2 * compute_zscore v (hist_stats p.1)))).sum

lemma spec_term_eq (o : Option ℝ) (w s : ℝ) (f : ℝ → ℝ) :
    (match o with
      | none => (0 : ℝ)
      | some v => w * (s * f v)) = w * s * (o.map f).getD 0 := by
  cases o with
  | none => simp
  | some v => simp; ring

/-- C2: the raw aggregate of `compute_overheat_score` equals the weighted sum
of per-metric z-scores with the fixed weights (0.30, 0.15, 0.15, 0.10, 0.10,
0.20), the `reserve_change_pct` z-score negated before weighting, and absent
metrics contributing zero. -/
theorem rawWeightedSum_spec (metrics : String → Option ℝ)
    (hist_stats : String → List ℝ) :
    rawWeightedSum (zOf metrics hist_stats) = specWeightedSum metrics hist_stats := by
  simp only [specWeightedSum, metricWeights, List.map_cons, List.map_nil,
    List.sum_cons, List.sum_nil, spec_term_eq, rawWeightedSum, zOf]
  ring

/-- C3: `normalize_score` with the clip bounds -3 and 3 is monotone
non-decreasing, maps 0 to 50, -3 to 0, 3 to 100, -10 to 0, 10 to 100, and
always lands in [0, 100]. -/
theorem normalize_score_spec :
    (∀ r r' : ℝ, r ≤ r' → normalize_score r ≤ normalize_score r') ∧
    normalize_score 0 = 50 ∧ normalize_score (-3) = 0 ∧
    normalize_score 3 = 100 ∧ normalize_score (-10) = 0 ∧
    normalize_score 10 = 100 ∧
    (∀ r : ℝ, 0 ≤ normalize_score r ∧ normalize_score r ≤ 100) := by
  refine ⟨?_, ?_, ?_, ?_, ?_, ?_, ?_⟩
  · intro r r' hrr
    have hc : max (min r 3) (-3) ≤ max (min r' 3) (-3) :=
      max_le_max (min_le_min hrr le_rfl) le_rfl
    simp only [normalize_score]
    nlinarith [hc]
  · norm_num [normalize_score, min_def, max_def]
  · norm_num [normalize_score, min_def, max_def]
  · norm_num [normalize_score, min_def, max_def]
  · norm_num [normalize_score, min_def, max_def]
  · norm_num [normalize_score, min_def, max_def]
  · intro r
    have hlow : (-3 : ℝ) ≤ max (min r 3) (-3) := le_max_right _ _
    have hhigh : max (min r 3) (-3) ≤ 3 :=
      max_le (le_trans (min_le_right r 3) le_rfl) (by norm_num)
    constructor
    · simp only [normalize_score]
      nlinarith
    · simp only [normalize_score]
      nlinarith

/-- Witness for C3: monotonicity instantiated at 1 ≤ 2, and containment of
`normalize_score 7` in [0, 100]. -/
theorem normalize_score_spec_witness :
    normalize_score 1 ≤ normalize_score 2 ∧
    0 ≤ normalize_score 7 ∧ normalize_score 7 ≤ 100 := by
  refine ⟨normalize_score_spec.1 1 2 (by norm_num), ?_, ?_⟩
  · exact (normalize_score_spec.2.2.2.2.2.2 7).1
  · exact (normalize_score_spec.2.2.2.2.2.2 7).2

/-- State of one per-(asset, metric) history file: missing, unreadable or
malformed (`json.load` raises), or readable with its list of floats. -/
inductive FileState
  | absent
  | corrupt
  | good (arr : List ℝ)

/-- The file store: one `FileState` per `hist_path(asset, metric)` key. -/
abbrev Store := String × String → FileState

/-- A store with no history files yet (cold start). -/
def emptyStore : Store := fun _ => .absent

/-- What the guarded read in `append_hist` yields: the file contents when the
file exists and parses, `[]` otherwise (the `except: arr = []` path). -/
def readArr (fs : FileState) : List ℝ :=
  match fs with
  | .good arr => arr
  | _ => []

/-- `load_hist` (app.py lines 169-178): `[]` when the file is missing, `[]`
when reading or parsing raises (bare `except`), otherwise `arr[-days:]`. -/
def load_hist (store : Store) (asset metric : String) (days : ℕ) : List ℝ :=
  match store (asset, metric) with
  | .absent => []
  | .corrupt => []
  | .good arr => pySliceLast days arr

/-- `append_hist` (app.py lines 180-192): read the file (defaulting to `[]`
on absence or parse failure), append the value, truncate to `arr[-180:]`,
write back to the file of that key. -/
def append_hist (store : Store) (asset metric : String) (value : ℝ) : Store :=
  fun key =>
    if key = (asset, metric) then
      .good (pySliceLast 180 (readArr (store (asset, metric)) ++ [value]))
    else store key

/-- One iteration of the per-metric loop of `single_check` (app.py lines
255-258): load the 90-day history first, then append the observed value. -/
def metric_step (store : Store) (asset metric : String) (value : ℝ) :
    List ℝ × Store :=
  (load_hist store asset metric 90, append_hist store asset metric value)

/-- The history window the second of two consecutive cycles hands to
`compute_zscore` for the same (asset, metric) key, after observing `v1` then
`v2`. -/
def second_cycle_hist (store : Store) (asset metric : String) (v1 v2 : ℝ) :
    List ℝ :=
  (metric_step (metric_step store asset metric v1).2 asset metric v2).1

/-- `N` successive `append_hist` calls on the same key. -/
def appendAll (store : Store) (asset metric : String) (vs : List ℝ) : Store :=
  vs.foldl (fun s v => append_hist s asset metric v) store

lemma pySliceLast_of_ne_zero {n : ℕ} (hn : n ≠ 0) (l : List ℝ) :
    pySliceLast n l = l.drop (l.length - n) := if_neg hn

lemma pySliceLast_zero (l : List ℝ) : pySliceLast 0 l = l := if_pos rfl

lemma pySliceLast_length_le {n : ℕ} (hn : n ≠ 0) (l : List ℝ) :
    (pySliceLast n l).length ≤ n := by
  rw [pySliceLast_of_ne_zero hn]
  rw [List.length_drop]
  omega

lemma pySliceLast_subset {n : ℕ} (l : List ℝ) : pySliceLast n l ⊆ l := by
  unfold pySliceLast
  split
  · exact fun _ h => h
  · exact List.drop_subset _ l

lemma getLast?_drop_of_lt {l : List ℝ} {k : ℕ} (h : k < l.length) :
    (l.drop k).getLast? = l.getLast? := by
  conv_rhs => rw [← List.take_append_drop k l]
  have hne : l.drop k ≠ [] := by
    have : (l.drop k).length = l.length - k := List.length_drop k l
    intro hnil
    rw [hnil] at this
    simp at this
    omega
  exact (List.getLast?_append_of_ne_nil _ hne).symm

lemma pySliceLast_getLast? {n : ℕ} (hn : n ≠ 0) {l : List ℝ} (hl : l ≠ []) :
    (pySliceLast n l).getLast? = l.getLast? := by
  rw [pySliceLast_of_ne_zero hn]
  apply getLast?_drop_of_lt
  have : 0 < l.length := List.length_pos.mpr hl
  omega

lemma pySliceLast_ne_nil {n : ℕ} (hn : n ≠ 0) {l : List ℝ} (hl : l ≠ []) :
    pySliceLast n l ≠ [] := by
  rw [pySliceLast_of_ne_zero hn]
  intro hnil
  have hlen := congrArg List.length hnil
  rw [List.length_drop] at hlen
  simp only [List.length_nil] at hlen
  have hpos : 0 < l.length := List.length_pos.mpr hl
  omega

lemma pySliceLast_append_pySliceLast {n : ℕ} (hn : n ≠ 0) (l l' : List ℝ) :
    pySliceLast n (pySliceLast n l ++ l') = pySliceLast n (l ++ l') := by
  rw [pySliceLast_of_ne_zero hn, pySliceLast_of_ne_zero hn,
    pySliceLast_of_ne_zero hn]
  have hd : l.length - n ≤ l.length := Nat.sub_le _ _
  rw [← List.drop_append_of_le_length hd, List.drop_drop]
  congr 1
  rw [List.length_drop, List.length_append]
  omega

lemma pySliceLast_pySliceLast {n m : ℕ} (hn : n ≠ 0) (hm : m ≠ 0)
    (l : List ℝ) :
    pySliceLast n (pySliceLast m l) = l.drop (l.length - min n m) := by
  rw [pySliceLast_of_ne_zero hn, pySliceLast_of_ne_zero hm, List.drop_drop]
  congr 1
  rw [List.length_drop]
  omega

lemma readArr_appendAll (store : Store) (asset metric : String)
    {vs : List ℝ} (hvs : vs ≠ []) :
    readArr (appendAll store asset metric vs (asset, metric)) =
      pySliceLast 180 (readArr (store (asset, metric)) ++ vs) := by
  induction vs generalizing store with
  | nil => exact absurd rfl hvs
  | cons v rest ih =>
      by_cases hrest : rest = []
      · subst hrest
        simp [appendAll, append_hist, readArr]
      · have hstep : appendAll store asset metric (v :: rest) =
            appendAll (append_hist store asset metric v) asset metric rest := by
          simp [appendAll, List.foldl_cons]
        rw [hstep, ih _ hrest]
        have harr : readArr (append_hist store asset metric v (asset, metric)) =
            pySliceLast 180 (readArr (store (asset, metric)) ++ [v]) := by
          simp [append_hist, readArr]
        rw [harr, pySliceLast_append_pySliceLast (by norm_num)]
        simp

/-- C5 (amended by nothing, general form): the history given to the z-score
in the second of two consecutive cycles is exactly the pre-append state after
`v1`, independent of `v2`; its last element is `v1`; and `v2` is not in it
unless it already occurred earlier. -/
theorem second_cycle_hist_spec (store : Store) (asset metric : String)
    (v1 v2 : ℝ) :
    second_cycle_hist store asset metric v1 v2 =
      pySliceLast 90 (pySliceLast 180 (readArr (store (asset, metric)) ++ [v1])) ∧
    (second_cycle_hist store asset metric v1 v2).getLast? = some v1 ∧
    (v2 ≠ v1 → v2 ∉ readArr (store (asset, metric)) →
      v2 ∉ second_cycle_hist store asset metric v1 v2) := by
  have harr : append_hist store asset metric v1 (asset, metric) =
      .good (pySliceLast 180 (readArr (store (asset, metric)) ++ [v1])) := by
    simp [append_hist]
  have hmain : second_cycle_hist store asset metric v1 v2 =
      pySliceLast 90 (pySliceLast 180 (readArr (store (asset, metric)) ++ [v1])) := by
    show load_hist (append_hist store asset metric v1) asset metric 90 = _
    unfold load_hist
    rw [harr]
  refine ⟨hmain, ?_, ?_⟩
  · rw [hmain]
    have hne : readArr (store (asset, metric)) ++ [v1] ≠ [] := by simp
    rw [pySliceLast_getLast? (by norm_num) (pySliceLast_ne_nil (by norm_num) hne),
      pySliceLast_getLast? (by norm_num) hne]
    exact List.getLast?_concat _
  · intro hne12 hmem
    rw [hmain]
    intro hmem2
    have h1 : v2 ∈ pySliceLast 180 (readArr (store (asset, metric)) ++ [v1]) :=
      pySliceLast_subset _ hmem2
    have h2 : v2 ∈ readArr (store (asset, metric)) ++ [v1] :=
      pySliceLast_subset _ h1
    rcases List.mem_append.mp h2 with h | h
    · exact hmem h
    · simp at h
      exact hne12 h

/-- Witness for C5: from a cold store, after observing 2 then 9, the second
z-score history of the second cycle for the key is `[2]` — it ends in 2 and omits 9. -/
theorem second_cycle_hist_spec_witness :
    (second_cycle_hist emptyStore "bitcoin" "funding_rate" 2 9).getLast? = some 2 ∧
    9 ∉ second_cycle_hist emptyStore "bitcoin" "funding_rate" 2 9 := by
  refine ⟨(second_cycle_hist_spec emptyStore "bitcoin" "funding_rate" 2 9).2.1, ?_⟩
  exact (second_cycle_hist_spec emptyStore "bitcoin" "funding_rate" 2 9).2.2
    (by norm_num) (by simp [emptyStore, readArr])

lemma appendAll_concat_good (store : Store) (asset metric : String)
    (ys : List ℝ) (v : ℝ) :
    appendAll store asset metric (ys ++ [v]) (asset, metric) =
      .good (pySliceLast 180
        (readArr (appendAll store asset metric ys (asset, metric)) ++ [v])) := by
  unfold appendAll
  rw [List.foldl_append]
  simp [append_hist, appendAll]

lemma appendAll_eq_good (store : Store) (asset metric : String)
    {vs : List ℝ} (hvs : vs ≠ []) :
    appendAll store asset metric vs (asset, metric) =
      .good (pySliceLast 180 (readArr (store (asset, metric)) ++ vs)) := by
  rcases List.eq_nil_or_concat vs with rfl | ⟨ys, v, rfl⟩
  · exact absurd rfl hvs
  · rw [List.concat_eq_append]
    rw [appendAll_concat_good]
    have h := readArr_appendAll store asset metric
      (show ys ++ [v] ≠ [] by simp)
    rw [appendAll_concat_good] at h
    refine congrArg FileState.good ?_
    simp only [readArr] at h ⊢
    exact h

/-- C6 amended: after appending the sequence `vs` to one key of a cold store,
the stored window holds at most 180 entries, and a load with lookback
`d >= 1` returns exactly the most recent `min(N, d, 180)` appended values
oldest-first, ending in the most recently appended value.  (At lookback 0 the
slice `arr[-0:]` in the source returns the whole stored window instead — see the
counterexample.) -/
theorem history_capacity_and_load (asset metric : String) (vs : List ℝ)
    (d : ℕ) :
    (readArr (appendAll emptyStore asset metric vs (asset, metric))).length ≤ 180 ∧
    (load_hist (appendAll emptyStore asset metric vs) asset metric d).length ≤ 180 ∧
    (1 ≤ d →
      load_hist (appendAll emptyStore asset metric vs) asset metric d =
        vs.drop (vs.length - min d 180)) ∧
    (1 ≤ d →
      (load_hist (appendAll emptyStore asset metric vs) asset metric d).length =
        min vs.length (min d 180)) ∧
    (1 ≤ d → vs ≠ [] →
      (load_hist (appendAll emptyStore asset metric vs) asset metric d).getLast? =
        vs.getLast?) := by
  by_cases hvs : vs = []
  · subst hvs
    have hsame : appendAll emptyStore asset metric [] = emptyStore := rfl
    rw [hsame]
    have hload : ∀ d', load_hist emptyStore asset metric d' = [] := by
      intro d'
      unfold load_hist emptyStore
      rfl
    refine ⟨by simp [emptyStore, readArr], by simp [hload], ?_, ?_, ?_⟩
    · intro _
      simp [hload]
    · intro _
      simp [hload]
    · intro _ hne
      exact absurd rfl hne
  · have hgood : appendAll emptyStore asset metric vs (asset, metric) =
        .good (pySliceLast 180 vs) := by
      rw [appendAll_eq_good emptyStore asset metric hvs]
      simp [emptyStore, readArr]
    have hload : load_hist (appendAll emptyStore asset metric vs) asset metric d =
        pySliceLast d (pySliceLast 180 vs) := by
      unfold load_hist
      rw [hgood]
    refine ⟨?_, ?_, ?_, ?_, ?_⟩
    · rw [hgood]
      simp only [readArr]
      exact pySliceLast_length_le (by norm_num) vs
    · rw [hload]
      by_cases hd : d = 0
      · subst hd
        rw [pySliceLast_zero]
        exact pySliceLast_length_le (by norm_num) vs
      · rw [pySliceLast_pySliceLast hd (by norm_num)]
        rw [List.length_drop]
        omega
    · intro hd
      rw [hload, pySliceLast_pySliceLast (by omega) (by norm_num)]
    · intro hd
      rw [hload, pySliceLast_pySliceLast (by omega) (by norm_num),
        List.length_drop]
      omega
    · intro hd hne
      rw [hload, pySliceLast_pySliceLast (by omega) (by norm_num)]
      apply getLast?_drop_of_lt
      have hpos : 0 < vs.length := List.length_pos.mpr hne
      omega

/-- Witness for the amended C6 theorem: three appends, lookback 2, returns the
two most recent values in arrival order, ending in the last append. -/
theorem history_capacity_and_load_witness :
    load_hist (appendAll emptyStore "bitcoin" "funding_rate" [4, 5, 6])
        "bitcoin" "funding_rate" 2 = [5, 6] ∧
    (load_hist (appendAll emptyStore "bitcoin" "funding_rate" [4, 5, 6])
        "bitcoin" "funding_rate" 2).getLast? = some 6 := by
  constructor
  · rw [(history_capacity_and_load "bitcoin" "funding_rate" [4, 5, 6] 2).2.2.1
      (by norm_num)]
    rfl
  · rw [(history_capacity_and_load "bitcoin" "funding_rate" [4, 5, 6] 2).2.2.2.2
      (by norm_num) (by simp)]
    rfl

/-- Counterexample to C6 as stated: with one appended value and requested
lookback 0, the claim demands the most recent `min(1, 0, 180) = 0` values,
i.e. `[]`, but the slice `arr[-0:]` in the source returns the entire stored
window `[1]`. -/
theorem load_hist_zero_lookback_counterexample :
    load_hist (appendAll emptyStore "bitcoin" "etf_netflow" [1])
        "bitcoin" "etf_netflow" 0 = [1] ∧
    load_hist (appendAll emptyStore "bitcoin" "etf_netflow" [1])
        "bitcoin" "etf_netflow" 0 ≠ [] := by
  have h : load_hist (appendAll emptyStore "bitcoin" "etf_netflow" [1])
      "bitcoin" "etf_netflow" 0 = [1] := by
    have hgood : appendAll emptyStore "bitcoin" "etf_netflow" [(1 : ℝ)]
        ("bitcoin", "etf_netflow") = .good (pySliceLast 180 [1]) := by
      rw [appendAll_eq_good emptyStore "bitcoin" "etf_netflow" (by simp)]
      simp [emptyStore, readArr]
    unfold load_hist
    rw [hgood]
    rfl
  exact ⟨h, by rw [h]; simp⟩

/-- C8: loading history never fails: a missing file and an unreadable or
malformed file both yield the empty (cold-start) history, and the result for
one key depends only on the file of that key, so corruption of one key cannot
affect loads of another. -/
theorem load_hist_never_fails (store : Store) (asset metric : String) (d : ℕ) :
    (store (asset, metric) = .absent → load_hist store asset metric d = []) ∧
    (store (asset, metric) = .corrupt → load_hist store asset metric d = []) ∧
    (∀ store' : Store, store' (asset, metric) = store (asset, metric) →
      load_hist store' asset metric d = load_hist store asset metric d) := by
  refine ⟨?_, ?_, ?_⟩
  · intro h
    unfold load_hist
    rw [h]
  · intro h
    unfold load_hist
    rw [h]
  · intro store' h
    unfold load_hist
    rw [h]

/-- Witness for C8: a cold store (missing file) and a store whose file for
the key is corrupt both load as the empty history. -/
theorem load_hist_never_fails_witness :
    load_hist emptyStore "bitcoin" "etf_netflow" 90 = [] ∧
    load_hist (fun _ => FileState.corrupt) "bitcoin" "etf_netflow" 90 = [] := by
  constructor
  · exact (load_hist_never_fails emptyStore "bitcoin" "etf_netflow" 90).1 rfl
  · exact (load_hist_never_fails (fun _ => FileState.corrupt)
      "bitcoin" "etf_netflow" 90).2.1 rfl

/-- The three classification outcomes of the check cycle. -/
inductive Classification
  | Overheat
  | Oversold
  | Normal
deriving DecidableEq

/-- The classifier of `single_check` (app.py lines 262-265):
`if score >= OVERHEAT_THRESHOLD` wins first, `elif score <= OVERSOLD_THRESHOLD`
second, anything else is normal (no alert appended). -/
def classify (score overheat_threshold oversold_threshold : ℝ) : Classification :=
  if score ≥ overheat_threshold then .Overheat
  else if score ≤ oversold_threshold then .Oversold
  else .Normal

/-- The alert tags of `single_check`. -/
inductive Tag
  | OVERHEAT
  | OVERSOLD
deriving DecidableEq

/-- The alerts one asset contributes to the batch of the cycle (app.py lines
262-265): `alerts.append(("OVERHEAT", rec))` under the first branch,
`alerts.append(("OVERSOLD", rec))` under the `elif`, nothing otherwise. -/
def alert_tags (score overheat_threshold oversold_threshold : ℝ) : List Tag :=
  if score ≥ overheat_threshold then [Tag.OVERHEAT]
  else if score ≤ oversold_threshold then [Tag.OVERSOLD]
  else []

/-- C4: classification follows the priority order (overheat first, then
oversold, else normal); with thresholds 60/30 the scores 60, 30, 45 classify
as Overheat, Oversold, Normal respectively; and under a misconfiguration
`overheat_threshold <= oversold_threshold` a score satisfying both conditions
classifies as Overheat. -/
theorem classify_spec :
    (∀ s ot os : ℝ, s ≥ ot → classify s ot os = .Overheat) ∧
    (∀ s ot os : ℝ, ¬(s ≥ ot) → s ≤ os → classify s ot os = .Oversold) ∧
    (∀ s ot os : ℝ, ¬(s ≥ ot) → ¬(s ≤ os) → classify s ot os = .Normal) ∧
    classify 60 60 30 = .Overheat ∧ classify 30 60 30 = .Oversold ∧
    classify 45 60 30 = .Normal ∧
    (∀ s ot os : ℝ, ot ≤ os → s ≥ ot → s ≤ os → classify s ot os = .Overheat) := by
  refine ⟨?_, ?_, ?_, ?_, ?_, ?_, ?_⟩
  · intro s ot os h
    simp [classify, h]
  · intro s ot os h1 h2
    simp [classify, h1, h2]
  · intro s ot os h1 h2
    simp [classify, h1, h2]
  · norm_num [classify]
  · norm_num [classify]
  · norm_num [classify]
  · intro s ot os _ h2 _
    simp [classify, h2]

/-- Witness for C4: the misconfiguration conjunct at thresholds 20/40 with
score 25, which satisfies both conditions yet classifies as Overheat. -/
theorem classify_spec_witness : classify 25 20 40 = .Overheat :=
  classify_spec.2.2.2.2.2.2 25 20 40 (by norm_num) (by norm_num) (by norm_num)

/-- C10: one asset contributes at most one alert per cycle: the if/elif makes
Overheat and Oversold mutually exclusive, so the tag list never holds both. -/
theorem alert_tags_at_most_one (s ot os : ℝ) :
    (alert_tags s ot os).length ≤ 1 ∧
    ¬(Tag.OVERHEAT ∈ alert_tags s ot os ∧ Tag.OVERSOLD ∈ alert_tags s ot os) := by
  unfold alert_tags
  split_ifs <;> simp

/-- The per-metric history loop of `single_check` (app.py lines 254-258):
for each metric in snapshot order, record the history loaded with a 90-entry
lookback, then append the freshly observed value to the store. -/
def histPhase (store : Store) (asset : String) :
    List (String × ℝ) → List (String × List ℝ) × Store
  | [] => ([], store)
  | (k, v) :: rest =>
      let h := load_hist store asset k 90
      let store' := append_hist store asset k v
      let res := histPhase store' asset rest
      ((k, h) :: res.1, res.2)

/-- The pass one asset makes through `single_check` (app.py lines 244-265), with the
metric snapshot given as the fetched (name, value) association list: update
histories, compute the composite score, and decide which alert tags the
asset appends to the batch of the cycle. -/
def asset_check (store : Store) (asset : String) (metrics : List (String × ℝ))
    (overheat_threshold oversold_threshold : ℝ) : ℝ × List Tag × Store :=
  let res := histPhase store asset metrics
  let snapshot : String → Option ℝ := fun k => metrics.lookup k
  let hist_stats : String → List ℝ := fun k => (res.1.lookup k).getD []
  let score := (compute_overheat_score snapshot hist_stats).1
  (score, alert_tags score overheat_threshold oversold_threshold, res.2)

/-- The metric snapshot of the cold-start scenario: every fetcher degrades to
the neutral 0.0 placeholder, in source construction order (app.py
lines 245-252). -/
def coldMetrics : List (String × ℝ) :=
  [("etf_netflow", 0), ("exchange_netflow", 0), ("oi_change_pct", 0),
   ("funding_rate", 0), ("whale_count", 0), ("reserve_change_pct", 0)]

lemma zOf_empty_hists (metrics : String → Option ℝ) (hs : String → List ℝ)
    (h : ∀ k, hs k = []) (k : String) : (zOf metrics hs k).getD 0 = 0 := by
  unfold zOf
  cases hm : metrics k with
  | none => simp
  | some v => simp [hm, h k, compute_zscore]

lemma rawWeightedSum_zero_of (z : String → Option ℝ)
    (h : ∀ k, (z k).getD 0 = 0) : rawWeightedSum z = 0 := by
  unfold rawWeightedSum
  rw [h, h, h, h, h, h]
  ring

lemma lookup_getD_nil {l : List (String × List ℝ)}
    (h : ∀ p ∈ l, p.2 = ([] : List ℝ)) (k : String) :
    (l.lookup k).getD [] = [] := by
  induction l with
  | nil => rfl
  | cons p rest ih =>
      rcases p with ⟨k', arr⟩
      by_cases hb : k = k'
      · have harr : arr = [] := h (k', arr) (by simp)
        subst hb
        simp [List.lookup, harr]
      · have hb' : (k == k') = false := by
          simp [hb]
        simp only [List.lookup, hb']
        exact ih fun p hp => h p (List.mem_cons_of_mem _ hp)

/-- C7: from a cold store with every metric at its neutral default 0.0, the
composite score is exactly 50, classification with thresholds 60/30 is
Normal, and the asset contributes no alert to the batch. -/
theorem cold_start_scenario :
    (asset_check emptyStore "bitcoin" coldMetrics 60 30).1 = 50 ∧
    classify (asset_check emptyStore "bitcoin" coldMetrics 60 30).1 60 30 =
      .Normal ∧
    (asset_check emptyStore "bitcoin" coldMetrics 60 30).2.1 = [] := by
  have h1 : (histPhase emptyStore "bitcoin" coldMetrics).1 =
      [("etf_netflow", []), ("exchange_netflow", []), ("oi_change_pct", []),
       ("funding_rate", []), ("whale_count", []), ("reserve_change_pct", [])] := by
    simp [histPhase, coldMetrics, load_hist, append_hist, emptyStore, readArr]
  have hs_empty : ∀ k : String,
      ((histPhase emptyStore "bitcoin" coldMetrics).1.lookup k).getD [] = [] := by
    rw [h1]
    intro k
    apply lookup_getD_nil
    intro p hp
    simp only [List.mem_cons, List.not_mem_nil, or_false] at hp
    rcases hp with rfl | rfl | rfl | rfl | rfl | rfl <;> rfl
  have hraw : rawWeightedSum (zOf (fun k => coldMetrics.lookup k)
      (fun k => ((histPhase emptyStore "bitcoin" coldMetrics).1.lookup k).getD [])) = 0 :=
    rawWeightedSum_zero_of _ (zOf_empty_hists _ _ hs_empty)
  have hscore : (asset_check emptyStore "bitcoin" coldMetrics 60 30).1 = 50 := by
    show normalize_score (rawWeightedSum (zOf (fun k => coldMetrics.lookup k)
      (fun k => ((histPhase emptyStore "bitcoin" coldMetrics).1.lookup k).getD [])))
      (-3) 3 = 50
    rw [hraw]
    norm_num [normalize_score, min_def, max_def]
  refine ⟨hscore, ?_, ?_⟩
  · rw [hscore]
    norm_num [classify]
  · show alert_tags (asset_check emptyStore "bitcoin" coldMetrics 60 30).1 60 30 = []
    rw [hscore]
    norm_num [alert_tags]

/-- The two configured delivery channels of the notification step. -/
inductive Channel
  | email
  | serverchan
deriving DecidableEq

/-- The notification loop of `single_check` (app.py lines 267-300): for each
queued alert, in batch order, call `send_email_gmail_shorttitle` and then
`send_serverchan`; both report failure by returning `False` (all exceptions
are caught inside them), and the loop ignores both results.  The trace lists
every delivery attempt with the outcome the channel reported. -/
def dispatch_alerts {α : Type} : List α → (α → Channel → Bool) →
    List (α × Channel × Bool)
  | [], _ => []
  | a :: rest, send =>
      (a, Channel.email, send a Channel.email) ::
      (a, Channel.serverchan, send a Channel.serverchan) ::
      dispatch_alerts rest send

/-- The attempts the spec requires: both channels for every queued event, in
batch order. -/
def expected_attempts {α : Type} : List α → List (α × Channel)
  | [] => []
  | a :: rest =>
      (a, Channel.email) :: (a, Channel.serverchan) :: expected_attempts rest

/-- C9: whatever each channel reports (including failure of any single
delivery), every queued alert is handed to both channels, in batch order, and
the loop runs to completion: the sequence of attempts is exactly
`expected_attempts`, independent of the outcome function. -/
theorem dispatch_attempts_all (α : Type) (alerts : List α)
    (send : α → Channel → Bool) :
    (dispatch_alerts alerts send).map (fun t => (t.1, t.2.1)) =
      expected_attempts alerts ∧
    (dispatch_alerts alerts send).length = 2 * alerts.length := by
  induction alerts with
  | nil => simp [dispatch_alerts, expected_attempts]
  | cons a rest ih =>
      refine ⟨?_, ?_⟩
      · simp only [dispatch_alerts, expected_attempts, List.map_cons]
        rw [ih.1]
      · simp only [dispatch_alerts, List.length_cons]
        rw [ih.2]
        ring

end App
